import Mathlib

/-!
# Real-time telemetry broadcast layer: a shallow embedding

This file embeds the real-time subsystem of the AiCostObserve server
(`registerRoutes` and its helpers): the socket-token codec
(`generateSocketToken` / `validateSocketToken`), the `wsClients` connection
registry, the WebSocket gateway handshake, and the ingestion-to-broadcast
bridge of `POST /api/telemetry/ingest`.

Modelling conventions:

* JavaScript strings are `List Char` (`JStr`).
* JSON runtime values are the inductive `JVal`; `jsonParse` and `renderJ`
  model `JSON.parse` / `JSON.stringify` restricted to integer numerals and
  to the character escapes the subsystem can produce.  Both are executable
  and structurally recursive, so concrete runs evaluate by `decide`.
* `Buffer.from(x).toString("base64")` and its inverse are a lossless,
  non-throwing transport layer in Node (lenient decoding never raises), so
  tokens are identified with their decoded text and the base64 layer is the
  identity.
* `createHmac("sha256", secret).update(data).digest("hex")` is an opaque
  deterministic function of the secret and the data; definitions take it as
  the explicit argument `hmac`.  No theorem below relies on any property of
  it beyond determinism.
* Every JavaScript expression that can throw inside the `try` blocks of the
  source (destructuring `null`, `hmac.update(undefined)`, property access on
  `null`, `JSON.parse` failure, `Buffer.from` on a non-string) is modelled by
  the explicit invalid/ignore result the surrounding `catch` produces.
* `Date.now()` is the explicit integer argument `now`.
-/

/-- JavaScript strings, modelled as their character sequences. -/
abbrev JStr := List Char

/-- A JSON runtime value.  Numbers are restricted to integers: the only
numbers this subsystem produces are millisecond timestamps. -/
inductive JVal where
  | jnull
  | jbool (b : Bool)
  | jnum (n : Int)
  | jstr (s : JStr)
  | jarr (elems : List JVal)
  | jobj (fields : List (JStr × JVal))
deriving Repr

open JVal

mutual
/-- Structural (deep) equality of JSON values, executable. -/
def jeq : JVal → JVal → Bool
  | .jnull, .jnull => true
  | .jbool a, .jbool b => a == b
  | .jnum a, .jnum b => a == b
  | .jstr a, .jstr b => a == b
  | .jarr a, .jarr b => jeqList a b
  | .jobj a, .jobj b => jeqFields a b
  | _, _ => false
def jeqList : List JVal → List JVal → Bool
  | [], [] => true
  | x :: xs, y :: ys => jeq x y && jeqList xs ys
  | _, _ => false
def jeqFields : List (JStr × JVal) → List (JStr × JVal) → Bool
  | [], [] => true
  | (k, x) :: xs, (l, y) :: ys => k == l && jeq x y && jeqFields xs ys
  | _, _ => false
end

mutual
theorem jeq_iff : ∀ a b : JVal, jeq a b = true ↔ a = b
  | .jnull, b => by cases b <;> simp [jeq]
  | .jbool x, b => by cases b <;> simp [jeq]
  | .jnum x, b => by cases b <;> simp [jeq]
  | .jstr x, b => by cases b <;> simp [jeq]
  | .jarr xs, b => by
      cases b <;> simp [jeq]
      exact jeqList_iff xs _
  | .jobj xs, b => by
      cases b <;> simp [jeq]
      exact jeqFields_iff xs _
theorem jeqList_iff : ∀ a b : List JVal, jeqList a b = true ↔ a = b
  | [], b => by cases b <;> simp [jeqList]
  | x :: xs, b => by
      cases b with
      | nil => simp [jeqList]
      | cons y ys => simp [jeqList, jeq_iff x y, jeqList_iff xs ys]
theorem jeqFields_iff : ∀ a b : List (JStr × JVal), jeqFields a b = true ↔ a = b
  | [], b => by cases b <;> simp [jeqFields]
  | (k, x) :: xs, b => by
      cases b with
      | nil => simp [jeqFields]
      | cons y ys =>
        obtain ⟨l, y⟩ := y
        simp [jeqFields, jeq_iff x y, jeqFields_iff xs ys, and_assoc]
end

instance : DecidableEq JVal := fun a b => decidable_of_iff (jeq a b = true) (jeq_iff a b)

/-! ## The JSON text model: `JSON.parse` and `JSON.stringify` -/

def wsChar (c : Char) : Bool := decide (c = ' ' ∨ c = '\n' ∨ c = '\t' ∨ c = '\r')

def digitChar (c : Char) : Bool := '0' ≤ c && c ≤ '9'

/-- Leading-whitespace removal, as the lexer between JSON tokens. -/
def dropWs : List Char → List Char
  | [] => []
  | c :: cs => if wsChar c then dropWs cs else c :: cs

/-- The character named by an escape letter (the escapes the renderer emits,
plus the solidus). -/
def escInv (e : Char) : Option Char :=
  if e = '"' ∨ e = '\\' ∨ e = '/' then some e
  else if e = 'n' then some '\n'
  else if e = 't' then some '\t'
  else if e = 'r' then some '\r'
  else none

/-- Body of a string literal, entered after the opening quote; returns the
decoded characters and the input after the closing quote. -/
def lexStr : List Char → Option (JStr × List Char)
  | [] => none
  | c :: cs =>
    if c = '"' then some ([], cs)
    else if c = '\\' then
      match cs with
      | [] => none
      | e :: cs2 =>
        match escInv e with
        | some u =>
          match lexStr cs2 with
          | some (s, r) => some (u :: s, r)
          | none => none
        | none => none
    else
      match lexStr cs with
      | some (s, r) => some (c :: s, r)
      | none => none

/-- Value of a run of decimal digit characters. -/
def digitsVal (ds : List Char) : Nat :=
  ds.foldl (fun a c => a * 10 + (c.toNat - 48)) 0

/-- A nonempty run of decimal digits and its value. -/
def lexDigits (cs : List Char) : Option (Nat × List Char) :=
  let ds := cs.takeWhile digitChar
  if ds.isEmpty then none else some (digitsVal ds, cs.dropWhile digitChar)

/-- An integer numeral: optional minus sign, then a nonempty digit run. -/
def lexInt : List Char → Option (Int × List Char)
  | '-' :: cs =>
    (match lexDigits cs with
     | some (m, r) => some (-(m : Int), r)
     | none => none)
  | cs =>
    match lexDigits cs with
    | some (m, r) => some ((m : Int), r)
    | none => none

mutual
/-- One JSON value.  `fuel` bounds nesting depth only; since every nesting
level consumes input, `length + 1` fuel always suffices. -/
def pVal : Nat → List Char → Option (JVal × List Char)
  | 0, _ => none
  | fuel + 1, cs =>
    match dropWs cs with
    | 'n' :: 'u' :: 'l' :: 'l' :: more => some (jnull, more)
    | 't' :: 'r' :: 'u' :: 'e' :: more => some (jbool true, more)
    | 'f' :: 'a' :: 'l' :: 's' :: 'e' :: more => some (jbool false, more)
    | '"' :: r =>
      match lexStr r with
      | some (s, r2) => some (jstr s, r2)
      | none => none
    | '[' :: r =>
      (match dropWs r with
       | ']' :: r2 => some (jarr [], r2)
       | r1 => match pItems fuel r1 with
               | some (es, r2) => some (jarr es, r2)
               | none => none)
    | '\x7b' :: r =>
      (match dropWs r with
       | '\x7d' :: r2 => some (jobj [], r2)
       | r1 => match pFields fuel r1 with
               | some (fs, r2) => some (jobj fs, r2)
               | none => none)
    | r =>
      match lexInt r with
      | some (n, r2) => some (jnum n, r2)
      | none => none
/-- One-or-more comma-separated array elements, up to the closing bracket. -/
def pItems : Nat → List Char → Option (List JVal × List Char)
  | 0, _ => none
  | fuel + 1, cs =>
    match pVal fuel cs with
    | none => none
    | some (v, r) =>
      match dropWs r with
      | ',' :: r2 =>
        (match pItems fuel r2 with
         | some (vs, r3) => some (v :: vs, r3)
         | none => none)
      | ']' :: r2 => some ([v], r2)
      | _ => none
/-- One-or-more comma-separated object members, up to the closing brace. -/
def pFields : Nat → List Char → Option (List (JStr × JVal) × List Char)
  | 0, _ => none
  | fuel + 1, cs =>
    match dropWs cs with
    | '"' :: r =>
      (match lexStr r with
       | none => none
       | some (k, r1) =>
         match dropWs r1 with
         | ':' :: r2 =>
           (match pVal fuel r2 with
            | none => none
            | some (v, r3) =>
              match dropWs r3 with
              | ',' :: r4 =>
                (match pFields fuel r4 with
                 | some (fs, r5) => some ((k, v) :: fs, r5)
                 | none => none)
              | '\x7d' :: r4 => some ([(k, v)], r4)
              | _ => none)
         | _ => none)
    | _ => none
end

/-- `JSON.parse`: a complete document followed only by whitespace; `none`
models the `SyntaxError` the caller catches. -/
def jsonParse (cs : List Char) : Option JVal :=
  match pVal (cs.length + 1) cs with
  | some (v, r) => if dropWs r = [] then some v else none
  | none => none

/-- JSON escape of one character (`JSON.stringify` on our value space). -/
def escCh (c : Char) : List Char :=
  if c = '"' then ['\\', '"']
  else if c = '\\' then ['\\', '\\']
  else if c = '\n' then ['\\', 'n']
  else if c = '\t' then ['\\', 't']
  else if c = '\r' then ['\\', 'r']
  else [c]

def escAll : List Char → List Char
  | [] => []
  | c :: cs => escCh c ++ escAll cs

/-- A rendered string literal, quotes included. -/
def strLit (s : JStr) : List Char := '"' :: escAll s ++ ['"']

/-- Decimal digits of `n`, most significant first (fuel-structural so that it
kernel-reduces; `n + 1` fuel always suffices). -/
def natCharsF : Nat → Nat → List Char
  | 0, _ => []
  | fuel + 1, n =>
    if n < 10 then [Char.ofNat (48 + n % 10)]
    else natCharsF fuel (n / 10) ++ [Char.ofNat (48 + n % 10)]

def natChars (n : Nat) : List Char := natCharsF (n + 1) n

def intChars (n : Int) : List Char :=
  if n < 0 then '-' :: natChars n.natAbs else natChars n.natAbs

mutual
/-- `JSON.stringify` on our value space (no added whitespace, keys in object
order, the escapes of `escCh`). -/
def renderJ : JVal → List Char
  | jnull => ['n', 'u', 'l', 'l']
  | jbool true => ['t', 'r', 'u', 'e']
  | jbool false => ['f', 'a', 'l', 's', 'e']
  | jnum n => intChars n
  | jstr s => strLit s
  | jarr es => '[' :: renderItems es ++ [']']
  | jobj fs => '\x7b' :: renderFields fs ++ ['\x7d']
def renderItems : List JVal → List Char
  | [] => []
  | [v] => renderJ v
  | v :: w :: tl => renderJ v ++ ',' :: renderItems (w :: tl)
def renderFields : List (JStr × JVal) → List Char
  | [] => []
  | [(k, v)] => strLit k ++ ':' :: renderJ v
  | (k, v) :: p :: tl => strLit k ++ ':' :: renderJ v ++ ',' :: renderFields (p :: tl)
end

/-- JavaScript property read `v[k]` on a parsed JSON value, for `v ≠ null`
(`null` property access throws and is handled at each use site).  `JSON.parse`
keeps the last of duplicate keys, hence the reversed lookup. -/
def getField (v : JVal) (k : JStr) : Option JVal :=
  match v with
  | jobj fs => List.lookup k fs.reverse
  | _ => none

/-- ECMAScript `ToNumber`, restricted to the integer-numeral fragment of the
model (`none` is NaN).  Strings coerce via trimmed decimal numerals; hex and
fractional forms are outside the model's value space. -/
def strToNumber (s : JStr) : Option Int :=
  let t := ((dropWs s).reverse |> dropWs).reverse
  match t with
  | [] => some 0
  | '-' :: ds => if !ds.isEmpty && ds.all digitChar then some (-(digitsVal ds : Int)) else none
  | '+' :: ds => if !ds.isEmpty && ds.all digitChar then some (digitsVal ds : Int) else none
  | ds => if ds.all digitChar then some (digitsVal ds : Int) else none

def toNumber : JVal → Option Int
  | jnull => some 0
  | jbool b => some (if b then 1 else 0)
  | jnum n => some n
  | jstr s => strToNumber s
  | jarr [] => some 0
  | jarr [v] => toNumber v
  | jarr (_ :: _ :: _) => none
  | jobj _ => none

/-- The JavaScript comparison `x < n` where `x` is a property that may be
`undefined` (`none`) and `n` is a number: `undefined` and other NaN-coercing
values compare false. -/
def jsLtNum (x : Option JVal) (n : Int) : Bool :=
  match x with
  | none => false
  | some v =>
    match toNumber v with
    | some m => decide (m < n)
    | none => false

/-- JavaScript truthiness of a property read result. -/
def jsTruthy : Option JVal → Bool
  | none => false
  | some jnull => false
  | some (jbool b) => b
  | some (jnum n) => decide (n ≠ 0)
  | some (jstr s) => !s.isEmpty
  | some (jarr _) => true
  | some (jobj _) => true

/-! ## The socket-token codec (part_008 lines 38-78) -/

def workspaceIdKey : JStr := "workspaceId".toList
def expKey : JStr := "exp".toList
def dataKey : JStr := "data".toList
def signatureKey : JStr := "signature".toList

/-- `TOKEN_EXPIRY = 24 * 60 * 60 * 1000` (line 40), in milliseconds. -/
def TOKEN_EXPIRY : Int := 24 * 60 * 60 * 1000

/-- `ValidationResult` is the runtime shape `{valid, workspaceId?}` returned
by `validateSocketToken`; since the source never checks that the payload's
`workspaceId` is a string, the field carries a JSON value. -/
structure ValidationResult where
  valid : Bool
  workspaceId : Option JVal
deriving DecidableEq, Repr

/-- `generateSocketToken` (lines 42-52): serialize `{workspaceId, exp}`,
sign the serialized payload, and wrap `{data, signature}`.  The base64 layer
is the identity of the model (see the header). -/
def generateSocketToken (hmac : JStr → JStr → JStr) (secret : JStr)
    (workspaceId : JStr) (now : Int) : JStr :=
  let data := renderJ (jobj [(workspaceIdKey, jstr workspaceId),
                             (expKey, jnum (now + TOKEN_EXPIRY))])
  let signature := hmac secret data
  renderJ (jobj [(dataKey, jstr data), (signatureKey, jstr signature)])

/-- `validateSocketToken` (lines 54-78).  Every throwing operation of the
source's `try` block is the explicit `⟨false, none⟩` of its `catch`:
`JSON.parse` failure, destructuring `null`, `hmac.update` on a non-string
`data`, and `payload.exp` on `null`. -/
def validateSocketToken (hmac : JStr → JStr → JStr) (secret : JStr)
    (token : JStr) (now : Int) : ValidationResult :=
  match jsonParse token with
  | none => ⟨false, none⟩
  | some JVal.jnull => ⟨false, none⟩
  | some decoded =>
    match getField decoded dataKey with
    | some (JVal.jstr data) =>
      let expectedSignature := hmac secret data
      if getField decoded signatureKey = some (JVal.jstr expectedSignature) then
        match jsonParse data with
        | none => ⟨false, none⟩
        | some JVal.jnull => ⟨false, none⟩
        | some payload =>
          if jsLtNum (getField payload expKey) now then ⟨false, none⟩
          else ⟨true, getField payload workspaceIdKey⟩
      else ⟨false, none⟩
    | _ => ⟨false, none⟩

/-- `validateSocketToken(message.token)` where `message.token` is whatever
truthy JSON value the client sent: `Buffer.from` throws a `TypeError` on a
non-string argument, which the `try`/`catch` turns into invalid. -/
def validateTokenValue (hmac : JStr → JStr → JStr) (secret : JStr)
    (tok : Option JVal) (now : Int) : ValidationResult :=
  match tok with
  | some (JVal.jstr s) => validateSocketToken hmac secret s now
  | _ => ⟨false, none⟩

/-! ## The connection registry and streaming gateway (part_008 lines 30-36, 964-1028) -/

def typeKey : JStr := "type".toList
def tokenKey : JStr := "token".toList
def messageKey : JStr := "message".toList

/-- One element of the `wsClients` set (lines 31-36).  `eid` models JavaScript
object identity: each `subscribe` allocates a fresh object.  The TypeScript
type of `workspaceId` is `string`, but the value stored is the unchecked
`validation.workspaceId`, so the model keeps the JSON value. -/
structure WsClient where
  eid : Nat
  socket : Nat
  workspaceId : JVal
deriving DecidableEq, Repr

/-- Per-connection handler state: the transport's open/closed flag
(`readyState === OPEN`) and the handler closure's `client` variable. -/
structure ConnSt where
  isOpen : Bool
  client : Option WsClient
deriving DecidableEq, Repr

/-- The whole gateway: the module-level `wsClients` set (iteration in
insertion order, as for a JavaScript `Set`), the live connections, a fresh
object counter, and the chronological log of every `ws.send(payload)`. -/
structure GwState where
  wsClients : List WsClient
  conns : List (Nat × ConnSt)
  nextEid : Nat
  sent : List (Nat × JStr)
deriving DecidableEq, Repr

def GwState.init : GwState := ⟨[], [], 0, []⟩

/-- Replace the state of connection `sock` (first binding wins on lookup). -/
def setConn (conns : List (Nat × ConnSt)) (sock : Nat) (c : ConnSt) :
    List (Nat × ConnSt) :=
  (sock, c) :: conns.filter (fun p => p.1 ≠ sock)

def getConn (st : GwState) (sock : Nat) : Option ConnSt :=
  List.lookup sock st.conns

/-- `client.socket.readyState === WebSocket.OPEN` for a registry entry. -/
def isOpenIn (st : GwState) (sock : Nat) : Bool :=
  match List.lookup sock st.conns with
  | some c => c.isOpen
  | none => false

def sendTo (st : GwState) (sock : Nat) (payload : JStr) : GwState :=
  { st with sent := st.sent ++ [(sock, payload)] }

/-- The serialized wire messages of the gateway (each a `JSON.stringify` of
the object literal at the corresponding source line). -/
def connectedWire : JStr :=
  renderJ (jobj [(typeKey, jstr "connected".toList),
    (messageKey, jstr "WebSocket connected. Send subscribe message with valid token.".toList)])

def errorWire : JStr :=
  renderJ (jobj [(typeKey, jstr "error".toList),
    (messageKey, jstr "Invalid or expired token".toList)])

def subscribedWire (w : JVal) : JStr :=
  renderJ (jobj [(typeKey, jstr "subscribed".toList), (workspaceIdKey, w),
    (messageKey, jstr "Subscribed to workspace logs".toList)])

/-- A persisted telemetry row as returned by `storage.createTelemetryLog`:
its tenant column plus the remaining columns, opaque to this subsystem. -/
structure TelemetryLog where
  workspaceId : JStr
  rest : List (JStr × JVal)
deriving DecidableEq, Repr

def logToJVal (log : TelemetryLog) : JVal :=
  jobj ((workspaceIdKey, jstr log.workspaceId) :: log.rest)

/-- The broadcast message (lines 685-688), serialized once per record. -/
def newLogMsg (log : TelemetryLog) : JVal :=
  jobj [(typeKey, jstr "new_log".toList), (dataKey, logToJVal log)]

def newLogWire (log : TelemetryLog) : JStr := renderJ (newLogMsg log)

/-- `wss.on("connection", ...)` (lines 970-971, 1023-1024): a fresh
connection starts with `client = null` and receives the greeting. -/
def onConnection (st : GwState) (sock : Nat) : GwState :=
  let st1 := { st with conns := setConn st.conns sock ⟨true, none⟩ }
  sendTo st1 sock connectedWire

/-- The condition of line 978: `message.type === "subscribe" && message.token`. -/
def isSubscribe (m : JVal) : Prop :=
  getField m typeKey = some (jstr "subscribe".toList) ∧
    jsTruthy (getField m tokenKey) = true

instance (m : JVal) : Decidable (isSubscribe m) := by
  unfold isSubscribe; infer_instance

/-- The body of the `if (message.type === "subscribe" && message.token)`
branch (lines 978-1004), for a message already parsed and known non-null. -/
def handleParsedMessage (hmac : JStr → JStr → JStr) (secret : JStr) (st : GwState)
    (sock : Nat) (conn : ConnSt) (message : JVal) (now : Int) : GwState :=
  if isSubscribe message then
    let validation := validateTokenValue hmac secret (getField message tokenKey) now
    if validation.valid = false ∨ jsTruthy validation.workspaceId = false then
      let st1 := sendTo st sock errorWire
      { st1 with conns := setConn st1.conns sock { conn with isOpen := false } }
    else
      match validation.workspaceId with
      | some w =>
        let client : WsClient := ⟨st.nextEid, sock, w⟩
        let st1 := { st with
          wsClients := st.wsClients ++ [client],
          conns := setConn st.conns sock { conn with client := some client },
          nextEid := st.nextEid + 1 }
        sendTo st1 sock (subscribedWire w)
      | none => st
  else st

/-- `ws.on("message", ...)` (lines 974-1008).  `JSON.parse` failure and
`message.type` on `null` throw into the handler's `catch`, which only logs;
a non-subscribe or token-less message falls through the single `if`; an
invalid or tenant-less validation sends one error and closes; success
allocates a fresh client object, adds it to `wsClients`, stores it in the
closure variable and confirms. -/
def onMessage (hmac : JStr → JStr → JStr) (secret : JStr) (st : GwState)
    (sock : Nat) (raw : JStr) (now : Int) : GwState :=
  match List.lookup sock st.conns with
  | none => st
  | some conn =>
    match jsonParse raw with
    | none => st
    | some JVal.jnull => st
    | some message => handleParsedMessage hmac secret st sock conn message now

/-- `ws.on("close", ...)` (lines 1010-1014): drop the closure's client from
the registry, if any; the transport is now closed. -/
def onCloseEvent (st : GwState) (sock : Nat) : GwState :=
  match List.lookup sock st.conns with
  | none => st
  | some conn =>
    let st1 := match conn.client with
      | some client => { st with wsClients := st.wsClients.erase client }
      | none => st
    { st1 with conns := setConn st1.conns sock { conn with isOpen := false } }

/-- `ws.on("error", ...)` (lines 1016-1021): same registry removal; the
transport-level close arrives as its own later event. -/
def onErrorEvent (st : GwState) (sock : Nat) : GwState :=
  match List.lookup sock st.conns with
  | none => st
  | some conn =>
    match conn.client with
    | some client => { st with wsClients := st.wsClients.erase client }
    | none => st

/-! ## The ingestion-to-broadcast bridge (part_008 lines 673-700) -/

/-- The registry entries the fan-out loop of lines 690-694 sends to: tenant
match and `readyState === OPEN`. -/
def matchingClients (st : GwState) (log : TelemetryLog) : List WsClient :=
  st.wsClients.filter
    (fun c => c.workspaceId = jstr log.workspaceId ∧ isOpenIn st c.socket = true)

/-- The send calls of one fan-out: the one serialized `message`, delivered
per matching registry entry. -/
def broadcastSends (st : GwState) (log : TelemetryLog) : List (Nat × JStr) :=
  let message := newLogWire log
  (matchingClients st log).map (fun c => (c.socket, message))

/-- State after the fan-out loop.  `ws.send` on an OPEN socket never throws
synchronously (write failures surface asynchronously through callbacks), so
the loop visits every matching entry unconditionally. -/
def broadcastNewLog (st : GwState) (log : TelemetryLog) : GwState :=
  { st with sent := st.sent ++ broadcastSends st log }

/-- Outcome of `POST /api/telemetry/ingest` as seen by the HTTP caller. -/
inductive IngestOutcome where
  | created (log : TelemetryLog)
  | badRequest
deriving DecidableEq, Repr

/-- The ingest handler after API-key validation (lines 674-700): `persist`
is the result of the schema-parse/`createTelemetryLog` collaborators (`none`
when they throw, giving the 400 of the `catch`); on success the record is
broadcast and 201 returned.  `sendOk` tells which sockets' asynchronous
writes succeed; the handler cannot observe it, and the per-delivery results
are returned alongside for the broadcast-isolation theorem. -/
def ingestTelemetry (persist : Option TelemetryLog) (sendOk : Nat → Bool)
    (st : GwState) : IngestOutcome × GwState × List ((Nat × JStr) × Bool) :=
  match persist with
  | none => (IngestOutcome.badRequest, st, [])
  | some log =>
    (IngestOutcome.created log, broadcastNewLog st log,
      (broadcastSends st log).map (fun a => (a, sendOk a.1)))

/-! ## Event traces -/

inductive GwEvent where
  | connect (sock : Nat)
  | message (sock : Nat) (raw : JStr) (now : Int)
  | closed (sock : Nat)
  | errored (sock : Nat)
  | ingest (log : TelemetryLog)

def stepGw (hmac : JStr → JStr → JStr) (secret : JStr) (st : GwState) :
    GwEvent → GwState
  | GwEvent.connect sock => onConnection st sock
  | GwEvent.message sock raw now => onMessage hmac secret st sock raw now
  | GwEvent.closed sock => onCloseEvent st sock
  | GwEvent.errored sock => onErrorEvent st sock
  | GwEvent.ingest log => broadcastNewLog st log

def runGw (hmac : JStr → JStr → JStr) (secret : JStr) (st : GwState)
    (evs : List GwEvent) : GwState :=
  evs.foldl (stepGw hmac secret) st

/-! ## Codec lemmas: the renderer's output parses back -/

theorem dropWs_cons_of_not_ws (c : Char) (x : List Char) (h : wsChar c = false) :
    dropWs (c :: x) = c :: x := by
  simp [dropWs, h]

theorem lexStr_escCh (c : Char) (x : List Char) :
    lexStr (escCh c ++ x) =
      match lexStr x with
      | some (s, r) => some (c :: s, r)
      | none => none := by
  by_cases h1 : c = '"'
  · subst h1; simp [escCh, lexStr, escInv]
  · by_cases h2 : c = '\\'
    · subst h2; simp [escCh, lexStr, escInv]
    · by_cases h3 : c = '\n'
      · subst h3; simp [escCh, lexStr, escInv]
      · by_cases h4 : c = '\t'
        · subst h4; simp [escCh, lexStr, escInv]
        · by_cases h5 : c = '\r'
          · subst h5; simp [escCh, lexStr, escInv]
          · simp only [escCh, if_neg h1, if_neg h2, if_neg h3, if_neg h4, if_neg h5,
              List.singleton_append]
            rw [lexStr.eq_def]
            simp [h1, h2]

theorem lexStr_escAll (s : JStr) : ∀ x : List Char,
    lexStr (escAll s ++ '"' :: x) = some (s, x) := by
  induction s with
  | nil =>
      intro x
      simp only [escAll, List.nil_append]
      rw [lexStr.eq_def]
      simp
  | cons c cs ih =>
      intro x
      rw [escAll, List.append_assoc, lexStr_escCh, ih]

theorem natCharsF_fuel (n : Nat) : ∀ f g : Nat, n < f → n < g →
    natCharsF f n = natCharsF g n := by
  induction n using Nat.strong_induction_on with
  | _ n ih =>
    intro f g hf hg
    match f, g, hf, hg with
    | f + 1, g + 1, _, _ =>
      by_cases h : n < 10
      · simp [natCharsF, h]
      · have hd : n / 10 < n := Nat.div_lt_self (by omega) (by omega)
        simp only [natCharsF, if_neg h]
        rw [ih (n / 10) hd f g (by omega) (by omega)]

theorem natChars_unfold (n : Nat) :
    natChars n = if n < 10 then [Char.ofNat (48 + n % 10)]
                 else natChars (n / 10) ++ [Char.ofNat (48 + n % 10)] := by
  have h0 : natChars n = if n < 10 then [Char.ofNat (48 + n % 10)]
      else natCharsF n (n / 10) ++ [Char.ofNat (48 + n % 10)] := rfl
  rw [h0]
  by_cases h : n < 10
  · simp [h]
  · have hd : n / 10 < n := Nat.div_lt_self (by omega) (by omega)
    simp only [if_neg h]
    rw [natCharsF_fuel (n / 10) n (n / 10 + 1) hd (by omega)]
    rfl

theorem digitChar_ofNat {k : Nat} (h : k < 10) :
    digitChar (Char.ofNat (48 + k)) = true ∧ (Char.ofNat (48 + k)).toNat - 48 = k := by
  interval_cases k <;> exact ⟨by decide, by decide⟩

theorem natChars_digits (n : Nat) : ∀ c ∈ natChars n, digitChar c = true := by
  induction n using Nat.strong_induction_on with
  | _ n ih =>
    rw [natChars_unfold]
    by_cases h : n < 10
    · simp only [if_pos h, List.mem_singleton]
      rintro c rfl
      exact (digitChar_ofNat (Nat.mod_lt _ (by omega))).1
    · simp only [if_neg h, List.mem_append, List.mem_singleton]
      rintro c (hc | rfl)
      · exact ih (n / 10) (Nat.div_lt_self (by omega) (by omega)) c hc
      · exact (digitChar_ofNat (Nat.mod_lt _ (by omega))).1

theorem natChars_ne_nil (n : Nat) : natChars n ≠ [] := by
  rw [natChars_unfold]
  by_cases h : n < 10 <;> simp [h]

theorem digitsVal_natChars (n : Nat) : digitsVal (natChars n) = n := by
  induction n using Nat.strong_induction_on with
  | _ n ih =>
    rw [natChars_unfold]
    by_cases h : n < 10
    · simp only [if_pos h, digitsVal, List.foldl_cons, List.foldl_nil]
      rw [(digitChar_ofNat (Nat.mod_lt _ (by omega))).2]
      omega
    · simp only [if_neg h, digitsVal, List.foldl_append, List.foldl_cons, List.foldl_nil]
      have := ih (n / 10) (Nat.div_lt_self (by omega) (by omega))
      simp only [digitsVal] at this
      rw [this, (digitChar_ofNat (Nat.mod_lt _ (by omega))).2]
      omega

/-- The remainder cannot extend a digit run: empty or headed by a non-digit. -/
def noDigitHead : List Char → Prop
  | [] => True
  | c :: _ => digitChar c = false

instance : ∀ x, Decidable (noDigitHead x)
  | [] => by unfold noDigitHead; infer_instance
  | _ :: _ => by unfold noDigitHead; infer_instance

theorem takeWhile_digits_append {ds x : List Char} (hds : ∀ c ∈ ds, digitChar c = true)
    (hx : noDigitHead x) :
    ds ++ x = (ds ++ x) ∧ (ds ++ x).takeWhile digitChar = ds
      ∧ (ds ++ x).dropWhile digitChar = x := by
  refine ⟨rfl, ?_, ?_⟩
  · rw [List.takeWhile_append_of_pos hds]
    cases x with
    | nil => simp
    | cons c t =>
      simp only [noDigitHead] at hx
      simp [List.takeWhile_cons, hx]
  · rw [List.dropWhile_append_of_pos hds]
    cases x with
    | nil => simp
    | cons c t =>
      simp only [noDigitHead] at hx
      simp [List.dropWhile_cons, hx]

theorem digitChar_ne_minus {c : Char} (h : digitChar c = true) : ¬ c = '-' := by
  rintro rfl
  exact absurd h (by decide)

theorem natChars_head (n : Nat) :
    ∃ c t, natChars n = c :: t ∧ digitChar c = true := by
  match h : natChars n with
  | [] => exact absurd h (natChars_ne_nil n)
  | c :: t =>
    exact ⟨c, t, rfl, natChars_digits n c (by rw [h]; exact List.mem_cons_self c t)⟩

theorem lexDigits_append {ds x : List Char} (hne : ds ≠ [])
    (hds : ∀ c ∈ ds, digitChar c = true) (hx : noDigitHead x) :
    lexDigits (ds ++ x) = some (digitsVal ds, x) := by
  obtain ⟨-, ht, hd⟩ := takeWhile_digits_append hds hx
  simp only [lexDigits, ht, hd]
  rw [if_neg (by simpa using hne)]

theorem lexInt_intChars (n : Int) (x : List Char) (hx : noDigitHead x) :
    lexInt (intChars n ++ x) = some (n, x) := by
  by_cases hn : n < 0
  · have harg : intChars n ++ x = '-' :: (natChars n.natAbs ++ x) := by
      simp [intChars, hn]
    rw [harg, lexInt.eq_def]
    simp only []
    rw [lexDigits_append (natChars_ne_nil n.natAbs) (natChars_digits n.natAbs) hx]
    simp only [Option.some.injEq, Prod.mk.injEq, and_true]
    rw [digitsVal_natChars]
    omega
  · obtain ⟨c, t, hct, hc⟩ := natChars_head n.natAbs
    have hcm := digitChar_ne_minus hc
    have harg : intChars n ++ x = c :: (t ++ x) := by
      simp [intChars, hn, hct]
    have hdig : lexDigits (c :: (t ++ x)) = some (digitsVal (natChars n.natAbs), x) := by
      rw [show c :: (t ++ x) = (c :: t) ++ x from rfl, ← hct]
      exact lexDigits_append (natChars_ne_nil n.natAbs) (natChars_digits n.natAbs) hx
    rw [harg, lexInt.eq_def]
    split
    · rename_i heq
      exact absurd (List.cons.inj heq).1 hcm
    · rw [hdig]
      simp only [Option.some.injEq, Prod.mk.injEq, and_true]
      rw [digitsVal_natChars]
      omega

theorem pVal_strLit (f : Nat) (s : JStr) (x : List Char) :
    pVal (f + 1) (strLit s ++ x) = some (JVal.jstr s, x) := by
  have harg : strLit s ++ x = '"' :: (escAll s ++ '"' :: x) := by
    simp [strLit]
  rw [harg, pVal.eq_def]
  simp [dropWs_cons_of_not_ws '"' (escAll s ++ '"' :: x) (by decide), lexStr_escAll]

theorem not_ws_of_digit {c : Char} (h : digitChar c = true) : wsChar c = false := by
  cases hw : wsChar c
  · rfl
  · exfalso
    have hor : c = ' ' ∨ c = '\n' ∨ c = '\t' ∨ c = '\r' := by
      simpa [wsChar] using hw
    rcases hor with rfl | rfl | rfl | rfl <;> exact absurd h (by decide)

theorem digit_not_kw {c : Char} (h : digitChar c = true) :
    ¬ c = 'n' ∧ ¬ c = 't' ∧ ¬ c = 'f' ∧ ¬ c = '"' ∧ ¬ c = '[' ∧ ¬ c = '\x7b' := by
  refine ⟨?k1, ?k2, ?k3, ?k4, ?k5, ?k6⟩
  all_goals rintro rfl
  all_goals exact absurd h (by decide)

theorem pVal_dispatch_int (f : Nat) (c : Char) (t : List Char)
    (hws : wsChar c = false) (h1 : ¬ c = 'n') (h2 : ¬ c = 't') (h3 : ¬ c = 'f')
    (h4 : ¬ c = '"') (h5 : ¬ c = '[') (h6 : ¬ c = '\x7b') :
    pVal (f + 1) (c :: t) =
      match lexInt (c :: t) with
      | some (n, r2) => some (JVal.jnum n, r2)
      | none => none := by
  rw [pVal.eq_def]
  simp [dropWs_cons_of_not_ws c t hws, h1, h2, h3, h4, h5, h6]

theorem pVal_intChars (f : Nat) (n : Int) (x : List Char) (hx : noDigitHead x) :
    pVal (f + 1) (intChars n ++ x) = some (JVal.jnum n, x) := by
  by_cases hn : n < 0
  · have harg : intChars n ++ x = '-' :: (natChars n.natAbs ++ x) := by
      simp [intChars, hn]
    rw [harg, pVal_dispatch_int f '-' _ (of_decide_eq_true rfl) (of_decide_eq_true rfl)
      (by decide) (of_decide_eq_true rfl) (by decide) (of_decide_eq_true rfl)
      (by decide), ← harg, lexInt_intChars n x hx]
  · obtain ⟨c, t, hct, hc⟩ := natChars_head n.natAbs
    obtain ⟨k1, k2, k3, k4, k5, k6⟩ := digit_not_kw hc
    have harg : intChars n ++ x = c :: (t ++ x) := by
      simp [intChars, hn, hct]
    rw [harg, pVal_dispatch_int f c _ (not_ws_of_digit hc) k1 k2 k3 k4 k5 k6, ← harg,
      lexInt_intChars n x hx]

theorem pVal_obj2 (f : Nat) (k1 k2 : JStr) (v1 v2 : JVal) (x : List Char)
    (hv1 : ∀ g y, noDigitHead y → pVal (g + 1) (renderJ v1 ++ y) = some (v1, y))
    (hv2 : ∀ g y, noDigitHead y → pVal (g + 1) (renderJ v2 ++ y) = some (v2, y)) :
    pVal (f + 4) (renderJ (jobj [(k1, v1), (k2, v2)]) ++ x) =
      some (jobj [(k1, v1), (k2, v2)], x) := by
  have hA2 := hv2 f ('\x7d' :: x) (by show digitChar '\x7d' = false; decide)
  have h3 : pFields (f + 2)
      ('"' :: (escAll k2 ++ ('"' :: (':' :: (renderJ v2 ++ '\x7d' :: x))))) =
      some ([(k2, v2)], x) := by
    rw [pFields.eq_def]
    simp [dropWs_cons_of_not_ws '"'
        (escAll k2 ++ ('"' :: (':' :: (renderJ v2 ++ '\x7d' :: x)))) (by decide),
      lexStr_escAll,
      dropWs_cons_of_not_ws ':' (renderJ v2 ++ '\x7d' :: x) (by decide),
      hA2,
      dropWs_cons_of_not_ws '\x7d' x (by decide)]
  have hA1 := hv1 (f + 1)
    (',' :: ('"' :: (escAll k2 ++ ('"' :: (':' :: (renderJ v2 ++ '\x7d' :: x))))))
    (by show digitChar ',' = false; decide)
  have h2 : pFields (f + 3)
      ('"' :: (escAll k1 ++ ('"' :: (':' :: (renderJ v1 ++
        ',' :: ('"' :: (escAll k2 ++ ('"' :: (':' :: (renderJ v2 ++ '\x7d' :: x)))))))))) =
      some ([(k1, v1), (k2, v2)], x) := by
    rw [pFields.eq_def]
    simp [dropWs_cons_of_not_ws '"'
        (escAll k1 ++ ('"' :: (':' :: (renderJ v1 ++
          ',' :: ('"' :: (escAll k2 ++ ('"' :: (':' :: (renderJ v2 ++ '\x7d' :: x))))))))) (by decide),
      lexStr_escAll,
      dropWs_cons_of_not_ws ':' (renderJ v1 ++
        ',' :: ('"' :: (escAll k2 ++ ('"' :: (':' :: (renderJ v2 ++ '\x7d' :: x)))))) (by decide),
      hA1,
      dropWs_cons_of_not_ws ','
        ('"' :: (escAll k2 ++ ('"' :: (':' :: (renderJ v2 ++ '\x7d' :: x))))) (by decide),
      h3]
  have harg : renderJ (jobj [(k1, v1), (k2, v2)]) ++ x =
      '\x7b' :: ('"' :: (escAll k1 ++ ('"' :: (':' :: (renderJ v1 ++
        ',' :: ('"' :: (escAll k2 ++ ('"' :: (':' :: (renderJ v2 ++ '\x7d' :: x)))))))))) := by
    simp [renderJ, renderFields, strLit, List.append_assoc]
  rw [harg, pVal.eq_def]
  simp [dropWs_cons_of_not_ws '\x7b'
      ('"' :: (escAll k1 ++ ('"' :: (':' :: (renderJ v1 ++
        ',' :: ('"' :: (escAll k2 ++ ('"' :: (':' :: (renderJ v2 ++ '\x7d' :: x)))))))))) (by decide),
    dropWs_cons_of_not_ws '"'
      (escAll k1 ++ ('"' :: (':' :: (renderJ v1 ++
        ',' :: ('"' :: (escAll k2 ++ ('"' :: (':' :: (renderJ v2 ++ '\x7d' :: x))))))))) (by decide),
    h2]

theorem jsonParse_obj2 (k1 k2 : JStr) (v1 v2 : JVal)
    (hv1 : ∀ g y, noDigitHead y → pVal (g + 1) (renderJ v1 ++ y) = some (v1, y))
    (hv2 : ∀ g y, noDigitHead y → pVal (g + 1) (renderJ v2 ++ y) = some (v2, y)) :
    jsonParse (renderJ (jobj [(k1, v1), (k2, v2)])) =
      some (jobj [(k1, v1), (k2, v2)]) := by
  set cs := renderJ (jobj [(k1, v1), (k2, v2)]) with hcs
  have hlen : 3 ≤ cs.length := by
    rw [hcs]
    simp [renderJ, renderFields, strLit]
    omega
  obtain ⟨f, hf⟩ : ∃ f, cs.length + 1 = f + 4 := ⟨cs.length - 3, by omega⟩
  have h2 := pVal_obj2 f k1 k2 v1 v2 [] hv1 hv2
  rw [List.append_nil] at h2
  rw [jsonParse, hf, h2]
  simp [dropWs]

theorem jsonParse_render_str_str (k1 k2 a b : JStr) :
    jsonParse (renderJ (jobj [(k1, jstr a), (k2, jstr b)])) =
      some (jobj [(k1, jstr a), (k2, jstr b)]) := by
  refine jsonParse_obj2 k1 k2 (jstr a) (jstr b) ?_ ?_ <;>
    exact fun g y _ => by simpa [renderJ] using pVal_strLit g _ y

theorem jsonParse_render_str_num (k1 k2 : JStr) (a : JStr) (n : Int) :
    jsonParse (renderJ (jobj [(k1, jstr a), (k2, jnum n)])) =
      some (jobj [(k1, jstr a), (k2, jnum n)]) := by
  refine jsonParse_obj2 k1 k2 (jstr a) (jnum n) ?_ ?_
  · exact fun g y _ => by simpa [renderJ] using pVal_strLit g a y
  · exact fun g y hy => by simpa [renderJ] using pVal_intChars g n y hy

/-- The well-signed envelope of line 51 around an arbitrary `data` string:
`generateSocketToken` produces exactly this with `data` the rendered payload,
and any holder of the secret can produce it for any `data`. -/
def signedEnvelope (hmac : JStr → JStr → JStr) (secret data : JStr) : JStr :=
  renderJ (jobj [(dataKey, jstr data), (signatureKey, jstr (hmac secret data))])

theorem generateSocketToken_eq (hmac : JStr → JStr → JStr) (secret w : JStr) (now : Int) :
    generateSocketToken hmac secret w now =
      signedEnvelope hmac secret
        (renderJ (jobj [(workspaceIdKey, jstr w), (expKey, jnum (now + TOKEN_EXPIRY))])) := rfl

theorem getField_obj2_fst (k1 k2 : JStr) (v1 v2 : JVal) (h : (k1 == k2) = false) :
    getField (jobj [(k1, v1), (k2, v2)]) k1 = some v1 := by
  simp [getField, List.lookup, h]

theorem getField_obj2_snd (k1 k2 : JStr) (v1 v2 : JVal) :
    getField (jobj [(k1, v1), (k2, v2)]) k2 = some v2 := by
  simp [getField, List.lookup]

/-- Validation of a well-signed envelope: the outer decode and the signature
comparison always succeed, and the result is decided by the decoded payload's
`exp` and `workspaceId` fields alone. -/
theorem validateSocketToken_signedEnvelope (hmac : JStr → JStr → JStr)
    (secret data : JStr) (t : Int) (pv : JVal)
    (hdp : jsonParse data = some pv) (hnn : pv ≠ jnull) :
    validateSocketToken hmac secret (signedEnvelope hmac secret data) t =
      if jsLtNum (getField pv expKey) t then ⟨false, none⟩
      else ⟨true, getField pv workspaceIdKey⟩ := by
  have hgd := getField_obj2_fst dataKey signatureKey (jstr data)
    (jstr (hmac secret data)) (by decide)
  have hgs := getField_obj2_snd dataKey signatureKey (jstr data) (jstr (hmac secret data))
  rw [validateSocketToken.eq_def, signedEnvelope,
    jsonParse_render_str_str dataKey signatureKey data (hmac secret data)]
  simp only [hgd, hgs, hdp]
  cases pv with
  | jnull => exact absurd rfl hnn
  | jbool b => simp
  | jnum n => simp
  | jstr s => simp
  | jarr es => simp
  | jobj fs => simp

/-! ## Claim C2: the issue/validate round trip and its expiry boundary -/

/-- A concrete stand-in for the HMAC function, for closed evaluations. -/
def hmacDemo : JStr → JStr → JStr := fun secret data => secret ++ data

def secretDemo : JStr := "k0".toList

def wDemo : JStr := "w1".toList

/-- C2, counterexample to the claim as stated: with `expiresAt = 0 +
TOKEN_EXPIRY`, validation run at the instant `now = expiresAt` still succeeds
(line 70 rejects only `exp < now`), while the claim demands failure at every
time equal to or after `expiresAt`. -/
theorem token_still_valid_at_expiry_instant :
    validateSocketToken hmacDemo secretDemo
      (generateSocketToken hmacDemo secretDemo wDemo 0) TOKEN_EXPIRY =
      ⟨true, some (jstr wDemo)⟩ := by decide

/-- C2 (amended): a token issued for tenant `w` at `t0` validates to `w` at
every time `t ≤ t0 + TOKEN_EXPIRY`, and fails at every time strictly after
`t0 + TOKEN_EXPIRY`. -/
theorem token_validity_window (hmac : JStr → JStr → JStr) (secret w : JStr) (t0 t : Int) :
    (t ≤ t0 + TOKEN_EXPIRY →
      validateSocketToken hmac secret (generateSocketToken hmac secret w t0) t =
        ⟨true, some (jstr w)⟩) ∧
    (t0 + TOKEN_EXPIRY < t →
      (validateSocketToken hmac secret (generateSocketToken hmac secret w t0) t).valid
        = false) := by
  have hpay := jsonParse_render_str_num workspaceIdKey expKey w (t0 + TOKEN_EXPIRY)
  have hmain := validateSocketToken_signedEnvelope hmac secret
    (renderJ (jobj [(workspaceIdKey, jstr w), (expKey, jnum (t0 + TOKEN_EXPIRY))])) t
    (jobj [(workspaceIdKey, jstr w), (expKey, jnum (t0 + TOKEN_EXPIRY))]) hpay (by simp)
  have hexp := getField_obj2_snd workspaceIdKey expKey (jstr w) (jnum (t0 + TOKEN_EXPIRY))
  have hwid := getField_obj2_fst workspaceIdKey expKey (jstr w) (jnum (t0 + TOKEN_EXPIRY))
    (by decide)
  rw [generateSocketToken_eq]
  constructor
  · intro h
    rw [hmain, hexp, if_neg (by simp [jsLtNum, toNumber]; omega), hwid]
  · intro h
    rw [hmain, hexp, if_pos (by simp [jsLtNum, toNumber]; omega)]

theorem token_validity_window_witness :
    validateSocketToken hmacDemo secretDemo
        (generateSocketToken hmacDemo secretDemo wDemo 0) 5 =
      ⟨true, some (jstr wDemo)⟩ ∧
    (validateSocketToken hmacDemo secretDemo
        (generateSocketToken hmacDemo secretDemo wDemo 0) (TOKEN_EXPIRY + 1)).valid
      = false :=
  ⟨(token_validity_window hmacDemo secretDemo wDemo 0 5).1 (by decide),
   (token_validity_window hmacDemo secretDemo wDemo 0 (TOKEN_EXPIRY + 1)).2 (by decide)⟩

/-! ## Claim C3: behavior of validation on malformed input -/

/-- C3, counterexample to the claim as stated: a correctly signed envelope
whose decoded payload is `{}` — missing both the tenant id and the expiry —
is reported `valid: true` (the `undefined < Date.now()` comparison of line 70
is false, so the missing expiry never rejects), not invalid. -/
theorem validate_accepts_fieldless_payload :
    validateSocketToken hmacDemo secretDemo
      (signedEnvelope hmacDemo secretDemo (renderJ (jobj []))) 0 =
      ⟨true, none⟩ := by decide

/-- C3 (amended): validation is a total function (every JavaScript throw
inside it is caught and returned as invalid); an input that fails JSON
decoding is invalid; but a correctly signed payload missing the required
fields is NOT rejected: a missing `exp` is treated as unexpired and the
result is valid with whatever `workspaceId` the payload carries (possibly
none) — the gateway, not the codec, rejects the tenant-less case. -/
theorem validate_malformed_and_missing_fields (hmac : JStr → JStr → JStr) (secret : JStr) :
    (∀ tok : JStr, ∀ t : Int, jsonParse tok = none →
        validateSocketToken hmac secret tok t = ⟨false, none⟩) ∧
    (∀ data : JStr, ∀ fields : List (JStr × JVal), ∀ t : Int,
        jsonParse data = some (jobj fields) →
        List.lookup expKey fields.reverse = none →
        validateSocketToken hmac secret (signedEnvelope hmac secret data) t =
          ⟨true, List.lookup workspaceIdKey fields.reverse⟩) := by
  constructor
  · intro tok t h
    rw [validateSocketToken.eq_def, h]
  · intro data fields t h1 h2
    rw [validateSocketToken_signedEnvelope hmac secret data t (jobj fields) h1 (by simp)]
    simp [getField, jsLtNum, h2]

theorem validate_malformed_and_missing_fields_witness :
    validateSocketToken hmacDemo secretDemo "x".toList 0 = ⟨false, none⟩ ∧
    validateSocketToken hmacDemo secretDemo
        (signedEnvelope hmacDemo secretDemo (renderJ (jobj []))) 7 =
      ⟨true, none⟩ :=
  ⟨(validate_malformed_and_missing_fields hmacDemo secretDemo).1 "x".toList 0 (by decide),
   (validate_malformed_and_missing_fields hmacDemo secretDemo).2
     (renderJ (jobj [])) [] 7 (by decide) (by decide)⟩

/-! ## Claim C1: tenant isolation of the fan-out -/

/-- C1: persisting a record for tenant `log.workspaceId` appends exactly the
fan-out sends to the transcript; every registry entry of that tenant whose
transport is open is delivered to, and no entry of a distinct tenant `t2` is
among the delivered-to entries. -/
theorem tenant_isolation_of_broadcast (st : GwState) (log : TelemetryLog) (t2 : JStr)
    (hne : t2 ≠ log.workspaceId) :
    (broadcastNewLog st log).sent = st.sent ++ broadcastSends st log ∧
    (∀ c ∈ st.wsClients, c.workspaceId = jstr log.workspaceId →
        isOpenIn st c.socket = true →
        c ∈ matchingClients st log ∧ (c.socket, newLogWire log) ∈ broadcastSends st log) ∧
    (∀ c ∈ st.wsClients, c.workspaceId = jstr t2 → c ∉ matchingClients st log) := by
  refine ⟨rfl, ?_, ?_⟩
  · intro c hc h1 h2
    have hm : c ∈ matchingClients st log := by
      simp [matchingClients, List.mem_filter, hc, h1, h2]
    refine ⟨hm, ?_⟩
    simpa [broadcastSends] using List.mem_map_of_mem (fun c => (c.socket, newLogWire log)) hm
  · intro c hc h1 hmem
    simp only [matchingClients, List.mem_filter, decide_eq_true_eq] at hmem
    exact hne (jstr.inj (h1 ▸ hmem.2.1))

def stDemo : GwState :=
  ⟨[⟨0, 1, jstr "W1".toList⟩, ⟨1, 2, jstr "W1".toList⟩, ⟨2, 3, jstr "W2".toList⟩],
   [(1, ⟨true, none⟩), (2, ⟨true, none⟩), (3, ⟨true, none⟩)], 3, []⟩

def logDemo : TelemetryLog := ⟨"W1".toList, [("id".toList, jstr "r1".toList)]⟩

theorem tenant_isolation_of_broadcast_witness :
    ((⟨0, 1, jstr "W1".toList⟩ : WsClient) ∈ matchingClients stDemo logDemo ∧
      (1, newLogWire logDemo) ∈ broadcastSends stDemo logDemo) ∧
    (⟨2, 3, jstr "W2".toList⟩ : WsClient) ∉ matchingClients stDemo logDemo :=
  ⟨(tenant_isolation_of_broadcast stDemo logDemo "W2".toList (by decide)).2.1
      ⟨0, 1, jstr "W1".toList⟩ (by decide) (by decide) (by decide),
   (tenant_isolation_of_broadcast stDemo logDemo "W2".toList (by decide)).2.2
      ⟨2, 3, jstr "W2".toList⟩ (by decide) (by decide)⟩

/-! ## Claim C8: payload fidelity of the fan-out -/

/-- C8: the broadcast message is the one `JSON.stringify` of
`{type: "new_log", data: record}`; every delivery carries that identical
serialized payload, and its `data` field is exactly the persisted record's
JSON value — no per-connection transformation. -/
theorem broadcast_payload_fidelity (st : GwState) (log : TelemetryLog) :
    newLogWire log = renderJ (newLogMsg log) ∧
    getField (newLogMsg log) dataKey = some (logToJVal log) ∧
    (∀ p ∈ broadcastSends st log, p.2 = newLogWire log) ∧
    (∀ c ∈ matchingClients st log, (c.socket, newLogWire log) ∈ broadcastSends st log) := by
  refine ⟨rfl, getField_obj2_snd typeKey dataKey _ _, ?_, ?_⟩
  · intro p hp
    simp only [broadcastSends, List.mem_map] at hp
    obtain ⟨c, -, rfl⟩ := hp
    rfl
  · intro c hc
    simpa [broadcastSends] using List.mem_map_of_mem (fun c => (c.socket, newLogWire log)) hc

theorem broadcast_payload_fidelity_witness :
    getField (newLogMsg logDemo) dataKey = some (logToJVal logDemo) ∧
    (2, newLogWire logDemo).2 = newLogWire logDemo ∧
    (1, newLogWire logDemo) ∈ broadcastSends stDemo logDemo :=
  ⟨(broadcast_payload_fidelity stDemo logDemo).2.1,
   (broadcast_payload_fidelity stDemo logDemo).2.2.1 (2, newLogWire logDemo)
     (by decide),
   (broadcast_payload_fidelity stDemo logDemo).2.2.2 ⟨0, 1, jstr "W1".toList⟩ (by decide)⟩

/-! ## Claim C6: broadcast failure isolation -/

/-- C6: the HTTP outcome and the post-broadcast state are identical for every
assignment of per-socket write outcomes (`ws.send` surfaces write failures
asynchronously; the loop never observes them), every matching connection's
delivery is attempted regardless of the other sockets' outcomes, and the
response is 201/created exactly when persistence succeeded. -/
theorem broadcast_failure_isolation (persist : Option TelemetryLog)
    (sendOk sendOk2 : Nat → Bool) (st : GwState) :
    ((ingestTelemetry persist sendOk st).1 = (ingestTelemetry persist sendOk2 st).1 ∧
     (ingestTelemetry persist sendOk st).2.1 = (ingestTelemetry persist sendOk2 st).2.1) ∧
    (∀ log, persist = some log →
      (ingestTelemetry persist sendOk st).1 = IngestOutcome.created log ∧
      ∀ c ∈ matchingClients st log,
        ((c.socket, newLogWire log), sendOk c.socket) ∈ (ingestTelemetry persist sendOk st).2.2) ∧
    (persist = none →
      ingestTelemetry persist sendOk st = (IngestOutcome.badRequest, st, [])) := by
  refine ⟨?_, ?_, ?_⟩
  · cases persist <;> simp [ingestTelemetry]
  · rintro log rfl
    refine ⟨rfl, ?_⟩
    intro c hc
    simp only [ingestTelemetry, broadcastSends, List.map_map, List.mem_map]
    exact ⟨c, hc, rfl⟩
  · rintro rfl
    rfl

def sendOkDemo : Nat → Bool := fun s => !(s == 1)

theorem broadcast_failure_isolation_witness :
    (ingestTelemetry (some logDemo) sendOkDemo stDemo).1 = IngestOutcome.created logDemo ∧
    ((2, newLogWire logDemo), sendOkDemo 2) ∈
      (ingestTelemetry (some logDemo) sendOkDemo stDemo).2.2 :=
  ⟨((broadcast_failure_isolation (some logDemo) sendOkDemo sendOkDemo stDemo).2.1
      logDemo rfl).1,
   ((broadcast_failure_isolation (some logDemo) sendOkDemo sendOkDemo stDemo).2.1
      logDemo rfl).2 ⟨1, 2, jstr "W1".toList⟩ (by decide)⟩

/-! ## Wire-format discrimination: the four message kinds differ by byte 10 -/

def subscribedHead : List Char := ['\x7b', '"', 't', 'y', 'p', 'e', '"', ':', '"', 's']

def newLogHead : List Char := ['\x7b', '"', 't', 'y', 'p', 'e', '"', ':', '"', 'n']

theorem subscribedWire_take (w : JVal) :
    (subscribedWire w).take 10 = subscribedHead := by
  simp [subscribedWire, subscribedHead, renderJ, renderFields, strLit, escAll, escCh,
    typeKey, workspaceIdKey, messageKey, List.take_succ_cons]

theorem newLogWire_take (log : TelemetryLog) :
    (newLogWire log).take 10 = newLogHead := by
  simp [newLogWire, newLogMsg, newLogHead, renderJ, renderFields, strLit, escAll, escCh,
    typeKey, dataKey, List.take_succ_cons]

theorem subscribedWire_ne_errorWire (w : JVal) : subscribedWire w ≠ errorWire := by
  intro h
  have h10 := congrArg (List.take 10) h
  rw [subscribedWire_take] at h10
  exact absurd h10 (by decide)

theorem newLogWire_ne_connectedWire (log : TelemetryLog) :
    newLogWire log ≠ connectedWire := by
  intro h
  have h10 := congrArg (List.take 10) h
  rw [newLogWire_take] at h10
  exact absurd h10 (by decide)

theorem newLogWire_ne_errorWire (log : TelemetryLog) : newLogWire log ≠ errorWire := by
  intro h
  have h10 := congrArg (List.take 10) h
  rw [newLogWire_take] at h10
  exact absurd h10 (by decide)

theorem newLogWire_ne_subscribedWire (log : TelemetryLog) (w : JVal) :
    newLogWire log ≠ subscribedWire w := by
  intro h
  have h10 := congrArg (List.take 10) h
  rw [newLogWire_take, subscribedWire_take] at h10
  exact absurd h10 (by decide)

/-! ## Claim C4: rejection protocol for invalid-token subscribes -/

theorem isSubscribe_jobj {m : JVal} (h : isSubscribe m) : ∃ fs, m = jobj fs := by
  cases m with
  | jobj fs => exact ⟨fs, rfl⟩
  | jnull => exact absurd h.1 (by simp [getField])
  | jbool b => exact absurd h.1 (by simp [getField])
  | jnum n => exact absurd h.1 (by simp [getField])
  | jstr s => exact absurd h.1 (by simp [getField])
  | jarr es => exact absurd h.1 (by simp [getField])

def rawEmptyTok : JStr :=
  renderJ (jobj [(typeKey, jstr "subscribe".toList), (tokenKey, jstr [])])

/-- C4, counterexample to the claim as stated: a subscribe carrying the empty
string as its token — a token that fails validation — is silently ignored by
the truthiness guard of line 978 (`message.token` is falsy): no error is
sent, the transport stays open, the state is untouched. -/
theorem empty_token_subscribe_ignored :
    onMessage hmacDemo secretDemo (onConnection GwState.init 0) 0 rawEmptyTok 0 =
        onConnection GwState.init 0 ∧
    (validateTokenValue hmacDemo secretDemo (some (jstr [])) 0).valid = false :=
  ⟨by decide, by decide⟩

/-- C4 (amended): a subscribe whose token is truthy (present and nonempty)
and fails validation receives exactly one `error` message, the transport is
closed, no registry entry is created, and the error wire is not a
`subscribed` message for any tenant; a subscribe whose token is absent or
empty is silently ignored instead. -/
theorem invalid_token_subscribe_rejected (hmac : JStr → JStr → JStr) (secret : JStr)
    (st : GwState) (sock : Nat) (raw : JStr) (now : Int) (conn : ConnSt) (m : JVal)
    (hconn : List.lookup sock st.conns = some conn)
    (hparse : jsonParse raw = some m)
    (hsub : isSubscribe m)
    (hbad : (validateTokenValue hmac secret (getField m tokenKey) now).valid = false) :
    (onMessage hmac secret st sock raw now).sent = st.sent ++ [(sock, errorWire)] ∧
    isOpenIn (onMessage hmac secret st sock raw now) sock = false ∧
    (onMessage hmac secret st sock raw now).wsClients = st.wsClients ∧
    (∀ w : JVal, errorWire ≠ subscribedWire w) := by
  obtain ⟨fs, rfl⟩ := isSubscribe_jobj hsub
  have hred : onMessage hmac secret st sock raw now =
      (let st1 := sendTo st sock errorWire
       { st1 with conns := setConn st1.conns sock { conn with isOpen := false } }) := by
    simp [onMessage, handleParsedMessage, hconn, hparse, hsub, hbad]
  rw [hred]
  refine ⟨rfl, ?_, rfl, fun w h => subscribedWire_ne_errorWire w h.symm⟩
  simp [isOpenIn, setConn, List.lookup]

def rawBadTok : JStr :=
  renderJ (jobj [(typeKey, jstr "subscribe".toList), (tokenKey, jstr "bad".toList)])

theorem invalid_token_subscribe_rejected_witness :
    (onMessage hmacDemo secretDemo (onConnection GwState.init 0) 0 rawBadTok 4).sent =
      (onConnection GwState.init 0).sent ++ [(0, errorWire)] ∧
    isOpenIn (onMessage hmacDemo secretDemo (onConnection GwState.init 0) 0 rawBadTok 4) 0
      = false := by
  have T := invalid_token_subscribe_rejected hmacDemo secretDemo
    (onConnection GwState.init 0) 0 rawBadTok 4 ⟨true, none⟩
    (jobj [(typeKey, jstr "subscribe".toList), (tokenKey, jstr "bad".toList)])
    (by decide) (by decide) (by decide) (by decide)
  exact ⟨T.1, T.2.1⟩

/-! ## Claim C9: permissive pre-auth handling of non-subscribe messages -/

/-- C9: while a connection exists (authenticated or not), a message that is
not valid JSON, or parses to `null`, or parses to a value whose `type` is not
the string `"subscribe"`, leaves the whole gateway state untouched — nothing
is sent, nothing closes, no registry change — and a later message is handled
exactly as if the ignored one had never arrived. -/
theorem preauth_nonsubscribe_ignored (hmac : JStr → JStr → JStr) (secret : JStr)
    (st : GwState) (sock : Nat) (raw : JStr) (now : Int) (conn : ConnSt)
    (hconn : List.lookup sock st.conns = some conn)
    (hms : jsonParse raw = none ∨ ∃ m, jsonParse raw = some m ∧
      (m = jnull ∨ getField m typeKey ≠ some (jstr "subscribe".toList))) :
    onMessage hmac secret st sock raw now = st ∧
    ∀ raw2 now2,
      onMessage hmac secret (onMessage hmac secret st sock raw now) sock raw2 now2 =
        onMessage hmac secret st sock raw2 now2 := by
  have h1 : onMessage hmac secret st sock raw now = st := by
    rcases hms with h | ⟨m, hm, hrest⟩
    · simp [onMessage, hconn, h]
    · rcases hrest with rfl | hne
      · simp [onMessage, hconn, hm]
      · have hns : ¬ isSubscribe m := fun hs => hne hs.1
        cases m <;> simp [onMessage, handleParsedMessage, hconn, hm, hns]
  exact ⟨h1, fun raw2 now2 => by rw [h1]⟩

theorem preauth_nonsubscribe_ignored_witness :
    onMessage hmacDemo secretDemo (onConnection GwState.init 0) 0 "hello".toList 3 =
      onConnection GwState.init 0 :=
  (preauth_nonsubscribe_ignored hmacDemo secretDemo (onConnection GwState.init 0) 0
    "hello".toList 3 ⟨true, none⟩ (by decide) (Or.inl (by decide))).1

/-! ## Claim C10: a second subscribe adds a second registry entry -/

/-- C10: an already-authenticated connection (its handler's `client` variable
holds `c1`, already registered) that sends another subscribe with a valid
token is processed again: a fresh entry is appended while `c1`'s entry stays;
the `client` variable now holds only the new entry, so both the
transport-close handler (lines 1010-1014) and the transport-error handler
(lines 1016-1021) remove just the newest entry and leave `c1`'s registered. -/
theorem double_subscribe_duplicate_entries (hmac : JStr → JStr → JStr) (secret : JStr)
    (st : GwState) (sock : Nat) (raw : JStr) (now : Int) (conn : ConnSt)
    (c1 : WsClient) (m : JVal) (w : JVal)
    (hconn : List.lookup sock st.conns = some conn)
    (hcl : conn.client = some c1)
    (hc1 : c1 ∈ st.wsClients)
    (hbound : ∀ c ∈ st.wsClients, c.eid < st.nextEid)
    (hparse : jsonParse raw = some m)
    (hsub : isSubscribe m)
    (hval : validateTokenValue hmac secret (getField m tokenKey) now = ⟨true, some w⟩)
    (hwtr : jsTruthy (some w) = true) :
    (onMessage hmac secret st sock raw now).wsClients
        = st.wsClients ++ [⟨st.nextEid, sock, w⟩] ∧
    c1 ∈ (onMessage hmac secret st sock raw now).wsClients ∧
    List.lookup sock (onMessage hmac secret st sock raw now).conns
        = some { conn with client := some ⟨st.nextEid, sock, w⟩ } ∧
    (onCloseEvent (onMessage hmac secret st sock raw now) sock).wsClients
        = st.wsClients ∧
    c1 ∈ (onCloseEvent (onMessage hmac secret st sock raw now) sock).wsClients ∧
    (⟨st.nextEid, sock, w⟩ : WsClient) ∉
      (onCloseEvent (onMessage hmac secret st sock raw now) sock).wsClients ∧
    (onErrorEvent (onMessage hmac secret st sock raw now) sock).wsClients
        = st.wsClients ∧
    c1 ∈ (onErrorEvent (onMessage hmac secret st sock raw now) sock).wsClients ∧
    (⟨st.nextEid, sock, w⟩ : WsClient) ∉
      (onErrorEvent (onMessage hmac secret st sock raw now) sock).wsClients := by
  obtain ⟨fs, rfl⟩ := isSubscribe_jobj hsub
  have hnotin : (⟨st.nextEid, sock, w⟩ : WsClient) ∉ st.wsClients := by
    intro h
    have := hbound _ h
    simp at this
  have hred : onMessage hmac secret st sock raw now =
      sendTo { st with
        wsClients := st.wsClients ++ [⟨st.nextEid, sock, w⟩],
        conns := setConn st.conns sock { conn with client := some ⟨st.nextEid, sock, w⟩ },
        nextEid := st.nextEid + 1 } sock (subscribedWire w) := by
    simp [onMessage, handleParsedMessage, hconn, hparse, hsub, hval, hwtr]
  have hlook : List.lookup sock (onMessage hmac secret st sock raw now).conns
      = some { conn with client := some ⟨st.nextEid, sock, w⟩ } := by
    rw [hred]
    simp [sendTo, setConn, List.lookup]
  have hcli : (onMessage hmac secret st sock raw now).wsClients
      = st.wsClients ++ [⟨st.nextEid, sock, w⟩] := by
    rw [hred]
    rfl
  have herase : ∀ c2 : WsClient, c2 ∉ st.wsClients →
      (st.wsClients ++ [c2]).erase c2 = st.wsClients := by
    intro c2 hn
    rw [List.erase_append_right [c2] hn, List.erase_cons_head, List.append_nil]
  have hclose : (onCloseEvent (onMessage hmac secret st sock raw now) sock).wsClients
      = st.wsClients := by
    simp only [onCloseEvent, hlook, hcli]
    exact herase _ hnotin
  have herr : (onErrorEvent (onMessage hmac secret st sock raw now) sock).wsClients
      = st.wsClients := by
    simp only [onErrorEvent, hlook, hcli]
    exact herase _ hnotin
  refine ⟨hcli, ?_, hlook, hclose, ?_, ?_, herr, ?_, ?_⟩
  · rw [hcli]
    exact List.mem_append_left _ hc1
  · rw [hclose]
    exact hc1
  · rw [hclose]
    exact hnotin
  · rw [herr]
    exact hc1
  · rw [herr]
    exact hnotin

def tokDemo : JStr := generateSocketToken hmacDemo secretDemo wDemo 0

def rawSubDemo : JStr :=
  renderJ (jobj [(typeKey, jstr "subscribe".toList), (tokenKey, jstr tokDemo)])

def stAuthDemo : GwState :=
  runGw hmacDemo secretDemo GwState.init [GwEvent.connect 0, GwEvent.message 0 rawSubDemo 1]

set_option maxRecDepth 100000 in
set_option maxHeartbeats 2000000 in
theorem double_subscribe_duplicate_entries_witness :
    (onMessage hmacDemo secretDemo stAuthDemo 0 rawSubDemo 2).wsClients
      = stAuthDemo.wsClients ++ [⟨stAuthDemo.nextEid, 0, jstr wDemo⟩] ∧
    (onCloseEvent (onMessage hmacDemo secretDemo stAuthDemo 0 rawSubDemo 2) 0).wsClients
      = stAuthDemo.wsClients ∧
    (onErrorEvent (onMessage hmacDemo secretDemo stAuthDemo 0 rawSubDemo 2) 0).wsClients
      = stAuthDemo.wsClients := by
  have T := double_subscribe_duplicate_entries hmacDemo secretDemo stAuthDemo 0 rawSubDemo 2
    ⟨true, some ⟨0, 0, jstr wDemo⟩⟩ ⟨0, 0, jstr wDemo⟩
    (jobj [(typeKey, jstr "subscribe".toList), (tokenKey, jstr tokDemo)]) (jstr wDemo)
    (by decide) rfl (of_decide_eq_true rfl) (by decide) (of_decide_eq_true rfl)
    (by decide) (of_decide_eq_true rfl) (by decide)
  exact ⟨T.1, T.2.2.2.1, T.2.2.2.2.2.2.1⟩

/-! ## Claim C5: the registry membership invariant -/

/-- Exhaustive description of one message event: it leaves the state
untouched, or rejects (registry untouched, one error sent), or registers one
fresh validated client and confirms it. -/
theorem onMessage_cases (hmac : JStr → JStr → JStr) (secret : JStr) (st : GwState)
    (sock : Nat) (raw : JStr) (now : Int) :
    onMessage hmac secret st sock raw now = st ∨
    ((onMessage hmac secret st sock raw now).wsClients = st.wsClients ∧
     (onMessage hmac secret st sock raw now).sent = st.sent ++ [(sock, errorWire)]) ∨
    (∃ m w, jsonParse raw = some m ∧ isSubscribe m ∧
      validateTokenValue hmac secret (getField m tokenKey) now = ⟨true, some w⟩ ∧
      (onMessage hmac secret st sock raw now).wsClients
        = st.wsClients ++ [⟨st.nextEid, sock, w⟩] ∧
      (onMessage hmac secret st sock raw now).sent
        = st.sent ++ [(sock, subscribedWire w)]) := by
  cases hlook : List.lookup sock st.conns with
  | none => exact Or.inl (by simp [onMessage, hlook])
  | some conn =>
    cases hp : jsonParse raw with
    | none => exact Or.inl (by simp [onMessage, hlook, hp])
    | some m =>
      have hred : onMessage hmac secret st sock raw now = st ∨
          onMessage hmac secret st sock raw now =
            handleParsedMessage hmac secret st sock conn m now := by
        cases m with
        | jnull => exact Or.inl (by simp [onMessage, hlook, hp])
        | jbool b => exact Or.inr (by simp [onMessage, hlook, hp])
        | jnum n => exact Or.inr (by simp [onMessage, hlook, hp])
        | jstr s => exact Or.inr (by simp [onMessage, hlook, hp])
        | jarr es => exact Or.inr (by simp [onMessage, hlook, hp])
        | jobj fs => exact Or.inr (by simp [onMessage, hlook, hp])
      rcases hred with h | h
      · exact Or.inl h
      · rw [h]
        by_cases hs : isSubscribe m
        · cases hv : validateTokenValue hmac secret (getField m tokenKey) now with
          | mk valid wsid =>
            by_cases hvalid : valid = false
            · refine Or.inr (Or.inl ?_)
              have : handleParsedMessage hmac secret st sock conn m now =
                  (let st1 := sendTo st sock errorWire
                   { st1 with conns := setConn st1.conns sock { conn with isOpen := false } }) := by
                simp [handleParsedMessage, hs, hv, hvalid]
              rw [this]
              exact ⟨rfl, rfl⟩
            · by_cases htru : jsTruthy wsid = false
              · refine Or.inr (Or.inl ?_)
                have : handleParsedMessage hmac secret st sock conn m now =
                    (let st1 := sendTo st sock errorWire
                     { st1 with conns := setConn st1.conns sock { conn with isOpen := false } }) := by
                  simp [handleParsedMessage, hs, hv, htru]
                rw [this]
                exact ⟨rfl, rfl⟩
              · cases wsid with
                | none => exact absurd rfl htru
                | some w =>
                  refine Or.inr (Or.inr ⟨m, w, rfl, hs, ?_, ?_, ?_⟩)
                  · rw [hv, Bool.of_not_eq_false hvalid]
                  · have : handleParsedMessage hmac secret st sock conn m now =
                        sendTo { st with
                          wsClients := st.wsClients ++ [⟨st.nextEid, sock, w⟩],
                          conns := setConn st.conns sock
                            { conn with client := some ⟨st.nextEid, sock, w⟩ },
                          nextEid := st.nextEid + 1 } sock (subscribedWire w) := by
                      simp [handleParsedMessage, hs, hv, hvalid, htru]
                    rw [this]
                    rfl
                  · have : handleParsedMessage hmac secret st sock conn m now =
                        sendTo { st with
                          wsClients := st.wsClients ++ [⟨st.nextEid, sock, w⟩],
                          conns := setConn st.conns sock
                            { conn with client := some ⟨st.nextEid, sock, w⟩ },
                          nextEid := st.nextEid + 1 } sock (subscribedWire w) := by
                      simp [handleParsedMessage, hs, hv, hvalid, htru]
                    rw [this]
                    rfl
        · exact Or.inl (by simp [handleParsedMessage, hs])

theorem onCloseEvent_effects (st : GwState) (sock : Nat) :
    (onCloseEvent st sock).sent = st.sent ∧
    ∀ c ∈ (onCloseEvent st sock).wsClients, c ∈ st.wsClients := by
  unfold onCloseEvent
  cases List.lookup sock st.conns with
  | none => exact ⟨rfl, fun c hc => hc⟩
  | some conn =>
    dsimp only
    cases hcl : conn.client with
    | none => exact ⟨rfl, fun c hc => hc⟩
    | some cl =>
      refine ⟨rfl, fun c hc => ?_⟩
      exact List.mem_of_mem_erase hc

theorem onErrorEvent_effects (st : GwState) (sock : Nat) :
    (onErrorEvent st sock).sent = st.sent ∧
    ∀ c ∈ (onErrorEvent st sock).wsClients, c ∈ st.wsClients := by
  unfold onErrorEvent
  cases List.lookup sock st.conns with
  | none => exact ⟨rfl, fun c hc => hc⟩
  | some conn =>
    dsimp only
    cases hcl : conn.client with
    | none => exact ⟨rfl, fun c hc => hc⟩
    | some cl =>
      refine ⟨rfl, fun c hc => ?_⟩
      exact List.mem_of_mem_erase hc

/-- C5: in every gateway state reachable from the initial one, every registry
entry's tenant value was returned by a successful token validation (some
token at some time validated to exactly that value), and the `subscribed`
confirmation for the entry was sent to its socket — no pending or tenant-less
entry ever appears. -/
theorem registry_entries_from_successful_validation (hmac : JStr → JStr → JStr)
    (secret : JStr) (evs : List GwEvent) :
    ∀ c ∈ (runGw hmac secret GwState.init evs).wsClients,
      (∃ tok : Option JVal, ∃ tnow : Int,
        validateTokenValue hmac secret tok tnow = ⟨true, some c.workspaceId⟩) ∧
      (c.socket, subscribedWire c.workspaceId) ∈ (runGw hmac secret GwState.init evs).sent := by
  have hstep : ∀ st : GwState, ∀ ev : GwEvent,
      (∀ c ∈ st.wsClients,
        (∃ tok : Option JVal, ∃ tnow : Int,
          validateTokenValue hmac secret tok tnow = ⟨true, some c.workspaceId⟩) ∧
        (c.socket, subscribedWire c.workspaceId) ∈ st.sent) →
      ∀ c ∈ (stepGw hmac secret st ev).wsClients,
        (∃ tok : Option JVal, ∃ tnow : Int,
          validateTokenValue hmac secret tok tnow = ⟨true, some c.workspaceId⟩) ∧
        (c.socket, subscribedWire c.workspaceId) ∈ (stepGw hmac secret st ev).sent := by
    intro st ev h
    cases ev with
    | connect s =>
      intro c hc
      have hc2 : c ∈ st.wsClients := hc
      exact ⟨(h c hc2).1, List.mem_append_left _ (h c hc2).2⟩
    | message s raw t =>
      rcases onMessage_cases hmac secret st s raw t with heq | ⟨hwc, hsent⟩ |
        ⟨m, w, hp, hs, hv, hwc, hsent⟩
      · intro c hc
        rw [show stepGw hmac secret st (GwEvent.message s raw t)
            = onMessage hmac secret st s raw t from rfl, heq] at hc ⊢
        exact h c hc
      · intro c hc
        rw [show stepGw hmac secret st (GwEvent.message s raw t)
            = onMessage hmac secret st s raw t from rfl] at hc ⊢
        rw [hwc] at hc
        rw [hsent]
        exact ⟨(h c hc).1, List.mem_append_left _ (h c hc).2⟩
      · intro c hc
        rw [show stepGw hmac secret st (GwEvent.message s raw t)
            = onMessage hmac secret st s raw t from rfl] at hc ⊢
        rw [hwc] at hc
        rw [hsent]
        rcases List.mem_append.mp hc with hold | hnew
        · exact ⟨(h c hold).1, List.mem_append_left _ (h c hold).2⟩
        · rw [List.mem_singleton] at hnew
          subst hnew
          exact ⟨⟨getField m tokenKey, t, hv⟩,
            List.mem_append_right _ (List.mem_singleton.mpr rfl)⟩
    | closed s =>
      intro c hc
      obtain ⟨hsent, hsub⟩ := onCloseEvent_effects st s
      have hc2 := hsub c hc
      rw [show (stepGw hmac secret st (GwEvent.closed s)).sent
          = (onCloseEvent st s).sent from rfl, hsent]
      exact h c hc2
    | errored s =>
      intro c hc
      obtain ⟨hsent, hsub⟩ := onErrorEvent_effects st s
      have hc2 := hsub c hc
      rw [show (stepGw hmac secret st (GwEvent.errored s)).sent
          = (onErrorEvent st s).sent from rfl, hsent]
      exact h c hc2
    | ingest log =>
      intro c hc
      have hc2 : c ∈ st.wsClients := hc
      exact ⟨(h c hc2).1, List.mem_append_left _ (h c hc2).2⟩
  have main : ∀ evs2 : List GwEvent, ∀ st : GwState,
      (∀ c ∈ st.wsClients,
        (∃ tok : Option JVal, ∃ tnow : Int,
          validateTokenValue hmac secret tok tnow = ⟨true, some c.workspaceId⟩) ∧
        (c.socket, subscribedWire c.workspaceId) ∈ st.sent) →
      ∀ c ∈ (runGw hmac secret st evs2).wsClients,
        (∃ tok : Option JVal, ∃ tnow : Int,
          validateTokenValue hmac secret tok tnow = ⟨true, some c.workspaceId⟩) ∧
        (c.socket, subscribedWire c.workspaceId) ∈ (runGw hmac secret st evs2).sent := by
    intro evs2
    induction evs2 with
    | nil => intro st h; exact h
    | cons ev tl ih =>
      intro st h
      exact ih (stepGw hmac secret st ev) (hstep st ev h)
  exact main evs GwState.init (by simp [GwState.init])

set_option maxRecDepth 100000 in
set_option maxHeartbeats 2000000 in
theorem registry_entries_from_successful_validation_witness :
    (∃ tok : Option JVal, ∃ tnow : Int,
      validateTokenValue hmacDemo secretDemo tok tnow = ⟨true, some (jstr wDemo)⟩) ∧
    (0, subscribedWire (jstr wDemo)) ∈ stAuthDemo.sent :=
  registry_entries_from_successful_validation hmacDemo secretDemo
    [GwEvent.connect 0, GwEvent.message 0 rawSubDemo 1] ⟨0, 0, jstr wDemo⟩ (by decide)

/-! ## Claim C7: never-subscribed connections receive no broadcasts -/

/-- C7: a connection that never sends a message of type `subscribe` is never
registered, so no `new_log` wire message is ever sent to it over any event
trace, however many records are ingested. -/
theorem never_subscribed_receives_no_newlog (hmac : JStr → JStr → JStr) (secret : JStr)
    (evs : List GwEvent) (sock : Nat)
    (hns : ∀ raw : JStr, ∀ t : Int, GwEvent.message sock raw t ∈ evs →
      ∀ m : JVal, jsonParse raw = some m →
        getField m typeKey ≠ some (jstr "subscribe".toList)) :
    ∀ log : TelemetryLog,
      (sock, newLogWire log) ∉ (runGw hmac secret GwState.init evs).sent := by
  suffices H : ∀ evs2 : List GwEvent, ∀ st : GwState,
      (∀ raw t, GwEvent.message sock raw t ∈ evs2 → ∀ m, jsonParse raw = some m →
        getField m typeKey ≠ some (jstr "subscribe".toList)) →
      (∀ c ∈ st.wsClients, c.socket ≠ sock) →
      (∀ log, (sock, newLogWire log) ∉ st.sent) →
      ∀ log, (sock, newLogWire log) ∉ (runGw hmac secret st evs2).sent by
    exact fun log =>
      H evs GwState.init hns (by simp [GwState.init]) (by simp [GwState.init]) log
  intro evs2
  induction evs2 with
  | nil => intro st _ _ h3; exact h3
  | cons ev tl ih =>
    intro st h1 h2 h3
    have h1tl : ∀ raw t, GwEvent.message sock raw t ∈ tl → ∀ m, jsonParse raw = some m →
        getField m typeKey ≠ some (jstr "subscribe".toList) :=
      fun raw t hm => h1 raw t (List.mem_cons_of_mem _ hm)
    refine ih (stepGw hmac secret st ev) h1tl ?_ ?_
    · -- no registry entry for `sock` after the step
      cases ev with
      | connect s => exact h2
      | message s raw t =>
        rcases onMessage_cases hmac secret st s raw t with heq | ⟨hwc, _⟩ |
          ⟨m, w, hp, hs, _, hwc, _⟩
        · rw [show stepGw hmac secret st (GwEvent.message s raw t)
              = onMessage hmac secret st s raw t from rfl, heq]
          exact h2
        · intro c hc
          rw [show stepGw hmac secret st (GwEvent.message s raw t)
              = onMessage hmac secret st s raw t from rfl, hwc] at hc
          exact h2 c hc
        · intro c hc
          rw [show stepGw hmac secret st (GwEvent.message s raw t)
              = onMessage hmac secret st s raw t from rfl, hwc] at hc
          rcases List.mem_append.mp hc with hold | hnew
          · exact h2 c hold
          · rw [List.mem_singleton] at hnew
            subst hnew
            intro hss
            exact h1 raw t (hss ▸ List.mem_cons_self _ _) m hp hs.1
      | closed s => exact fun c hc => h2 c ((onCloseEvent_effects st s).2 c hc)
      | errored s => exact fun c hc => h2 c ((onErrorEvent_effects st s).2 c hc)
      | ingest log => exact h2
    · -- no new_log wire to `sock` after the step
      cases ev with
      | connect s =>
        intro log hmem
        rcases List.mem_append.mp hmem with hold | hnew
        · exact h3 log hold
        · rw [List.mem_singleton, Prod.mk.injEq] at hnew
          exact newLogWire_ne_connectedWire log hnew.2
      | message s raw t =>
        rcases onMessage_cases hmac secret st s raw t with heq | ⟨_, hsent⟩ |
          ⟨m, w, hp, hs, _, _, hsent⟩
        · rw [show stepGw hmac secret st (GwEvent.message s raw t)
              = onMessage hmac secret st s raw t from rfl, heq]
          exact h3
        · intro log hmem
          rw [show stepGw hmac secret st (GwEvent.message s raw t)
              = onMessage hmac secret st s raw t from rfl, hsent] at hmem
          rcases List.mem_append.mp hmem with hold | hnew
          · exact h3 log hold
          · rw [List.mem_singleton, Prod.mk.injEq] at hnew
            exact newLogWire_ne_errorWire log hnew.2
        · intro log hmem
          rw [show stepGw hmac secret st (GwEvent.message s raw t)
              = onMessage hmac secret st s raw t from rfl, hsent] at hmem
          rcases List.mem_append.mp hmem with hold | hnew
          · exact h3 log hold
          · rw [List.mem_singleton, Prod.mk.injEq] at hnew
            exact newLogWire_ne_subscribedWire log w hnew.2
      | closed s =>
        intro log hmem
        rw [show (stepGw hmac secret st (GwEvent.closed s))
            = onCloseEvent st s from rfl, (onCloseEvent_effects st s).1] at hmem
        exact h3 log hmem
      | errored s =>
        intro log hmem
        rw [show (stepGw hmac secret st (GwEvent.errored s))
            = onErrorEvent st s from rfl, (onErrorEvent_effects st s).1] at hmem
        exact h3 log hmem
      | ingest log2 =>
        intro log hmem
        rcases List.mem_append.mp hmem with hold | hnew
        · exact h3 log hold
        · simp only [broadcastSends, List.mem_map] at hnew
          obtain ⟨c, hcm, heq⟩ := hnew
          have hcw : c ∈ st.wsClients := (List.mem_filter.mp hcm).1
          have : c.socket = sock := congrArg Prod.fst heq
          exact h2 c hcw this

def evsDemo : List GwEvent :=
  [GwEvent.connect 0, GwEvent.connect 1, GwEvent.message 0 rawSubDemo 1,
   GwEvent.message 1 "hi".toList 2, GwEvent.ingest logDemo]

set_option maxRecDepth 100000 in
set_option maxHeartbeats 2000000 in
theorem never_subscribed_receives_no_newlog_witness :
    (1, newLogWire logDemo) ∉ (runGw hmacDemo secretDemo GwState.init evsDemo).sent := by
  refine never_subscribed_receives_no_newlog hmacDemo secretDemo evsDemo 1 ?_ logDemo
  intro raw t hm m hp
  simp only [evsDemo, List.mem_cons, List.not_mem_nil, or_false] at hm
  rcases hm with h | h | h | h | h
  · exact absurd h (by simp)
  · exact absurd h (by simp)
  · exact absurd h (by simp)
  · injection h with h1 h2 h3
    subst h2
    rw [show jsonParse "hi".toList = none from by decide] at hp
    exact absurd hp (by simp)
  · exact absurd h (by simp)
